import Mathlib

/-!
A verification development for the `protoc-gen-twirp_ts` code generator.

The Go source (`generator.go` and the template/model file) is shallowly
embedded below: pure Go functions become Lean functions on `String`
(represented through its character list, so that everything reduces in the
kernel), the descriptor tree becomes a family of inductive types mirroring
the protobuf descriptor model, and the model-building pass of `generate`
becomes explicit recursion threading the resolver registry and the per-file
model.  Fallible code (Go panics such as out-of-range string slicing, which
abort the run) is embedded through `Option`.  Components of the repository
that are not part of the provided source (the dependency resolver and
`AddImport`) are modelled from the specification and are marked as such in
their doc comments.
-/

/-! ## Go string and path primitives

Go's `strings` and `path` helpers used by the generator, defined
structurally over the character list of a `String` so that they compute by
kernel reduction. -/

/-- Build a `String` from its character list. -/
def chStr (cs : List Char) : String := ⟨cs⟩

/-- Split a character list at every occurrence of the separator character.
Mirrors Go `strings.Split` for a one-character separator: splitting the
empty string yields `[[]]`, and adjacent separators yield empty segments. -/
def goSplitChar (sep : Char) : List Char → List (List Char)
  | [] => [[]]
  | c :: cs =>
    let r := goSplitChar sep cs
    if c = sep then [] :: r
    else
      match r with
      | [] => [[c]]
      | l :: ls => (c :: l) :: ls

/-- Go `strings.Split(s, sep)` for a one-character separator. -/
def goSplit (s : String) (sep : Char) : List String :=
  (goSplitChar sep s.data).map chStr

/-- Go `strings.SplitN(s, sep, n)` for a one-character separator and `n > 0`:
at most `n` substrings, the last one holding the unsplit remainder. -/
def goSplitN (s : String) (sep : Char) (n : Nat) : List String :=
  let parts := goSplit s sep
  if parts.length ≤ n then parts
  else parts.take (n - 1) ++ [String.intercalate (chStr [sep]) (parts.drop (n - 1))]

/-- Go `strings.TrimSuffix(s, suffix)`. -/
def goTrimSuffix (s suffix : String) : String :=
  if suffix.data.isSuffixOf s.data then chStr (s.data.take (s.data.length - suffix.data.length))
  else s

/-- Go `strings.Repeat(s, n)`. -/
def goRepeat (s : String) (n : Nat) : String :=
  String.join (List.replicate n s)

/-- Go `path.Join` restricted to the inputs the generator feeds it
(slash-free package segments, file base names, and already-joined package
paths, none of which are `"."` or `".."`): empty components are dropped and
the rest are joined with `"/"`; on such inputs Go's trailing `Clean` is the
identity. -/
def goPathJoin (elems : List String) : String :=
  String.intercalate "/" (elems.filter (fun e => ¬ e = ""))

/-- Go `path.Base` restricted to paths without trailing slashes (the
generator only applies it to file names and package strings). -/
def goPathBase (s : String) : String :=
  if s = "" then "." else (goSplit s '/').getLastD ""

/-- Go `path.Ext`: the suffix of the final slash-separated component
starting at its last dot, empty when that component has no dot. -/
def goPathExt (s : String) : String :=
  let base := (goSplit s '/').getLastD ""
  let parts := goSplit base '.'
  if parts.length ≤ 1 then "" else "." ++ parts.getLastD ""

example : goSplit ".shop.v1.Item" '.' = ["", "shop", "v1", "Item"] := by decide
example : goSplitN ".shop.v1.Item" '.' 3 = ["", "shop", "v1.Item"] := by decide
example : goPathBase "shop/item.proto" = "item.proto" := by decide
example : goPathExt "shop/item.proto" = ".proto" := by decide
example : goTrimSuffix "item.proto" ".proto" = "item" := by decide
example : goPathJoin ["shop/v1", "item.ts"] = "shop/v1/item.ts" := by decide

/-! ## The protobuf descriptor model

The slice of `descriptor.proto` that `generator.go` reads, with Go getter
defaults baked in (absent scalar fields read as zero values; only the field
label's presence is tested by the source, so it stays an `Option`). -/

/-- Wire types of `descriptor.FieldDescriptorProto_Type`. -/
inductive FieldType where
  | TYPE_DOUBLE | TYPE_FLOAT | TYPE_INT64 | TYPE_UINT64 | TYPE_INT32
  | TYPE_FIXED64 | TYPE_FIXED32 | TYPE_BOOL | TYPE_STRING | TYPE_GROUP
  | TYPE_MESSAGE | TYPE_BYTES | TYPE_UINT32 | TYPE_ENUM | TYPE_SFIXED32
  | TYPE_SFIXED64 | TYPE_SINT32 | TYPE_SINT64
deriving DecidableEq, Repr

/-- `descriptor.FieldDescriptorProto_Label`. -/
inductive FieldLabel where
  | LABEL_OPTIONAL | LABEL_REQUIRED | LABEL_REPEATED
deriving DecidableEq, Repr

structure EnumValueDescriptorProto where
  name : String
  number : Int
deriving Repr

structure EnumDescriptorProto where
  name : String
  value : List EnumValueDescriptorProto
deriving Repr

structure FieldDescriptorProto where
  name : String
  type' : FieldType
  typeName : String
  label : Option FieldLabel
deriving Repr

/-- `descriptor.DescriptorProto` (a message declaration); recursive through
its nested message declarations. -/
inductive DescriptorProto where
  | mk (name : String) (field : List FieldDescriptorProto)
      (nestedType : List DescriptorProto) (enumType : List EnumDescriptorProto)

def DescriptorProto.name : DescriptorProto → String
  | .mk n _ _ _ => n

def DescriptorProto.field : DescriptorProto → List FieldDescriptorProto
  | .mk _ f _ _ => f

def DescriptorProto.nestedType : DescriptorProto → List DescriptorProto
  | .mk _ _ nt _ => nt

def DescriptorProto.enumType : DescriptorProto → List EnumDescriptorProto
  | .mk _ _ _ et => et

structure MethodDescriptorProto where
  name : String
  inputType : String
  outputType : String
deriving Repr

structure ServiceDescriptorProto where
  name : String
  method : List MethodDescriptorProto
deriving Repr

structure FileDescriptorProto where
  name : String
  package : String
  enumType : List EnumDescriptorProto
  messageType : List DescriptorProto
  service : List ServiceDescriptorProto

/-! ## `generator.go`: pure helpers -/

/-- `generator.go` `sameFile`: two descriptor files are the same when their
names agree. -/
def sameFile (a b : FileDescriptorProto) : Bool :=
  a.name == b.name

/-- `generator.go` `fullTypeName`: `fmt.Sprintf(".%s.%s", fd.GetPackage(), typeName)`. -/
def fullTypeName (fd : FileDescriptorProto) (typeName : String) : String :=
  "." ++ fd.package ++ "." ++ typeName

/-- `generator.go` `isRepeated`: the label is present and `LABEL_REPEATED`. -/
def isRepeated (field : FieldDescriptorProto) : Bool :=
  field.label == some FieldLabel.LABEL_REPEATED

/-- `generator.go` `removePkg`:
`p := strings.SplitN(s, ".", 3); c := strings.Split(p[len(p)-1], "."); return strings.Join(c, "_")`. -/
def removePkg (s : String) : String :=
  let p := goSplitN s '.' 3
  let c := goSplit (p.getLastD "") '.'
  String.intercalate "_" c

/-- `generator.go` `upperCaseFirst`: `strings.ToUpper(s[0:1]) + s[1:]`;
`none` models the Go slice-bounds panic on the empty string. -/
def upperCaseFirst (s : String) : Option String :=
  match s.data with
  | [] => none
  | c :: cs => some (chStr (c.toUpper :: cs))

/-- The loop body of `camelCase` over the segments after the first:
uppercase each segment's first character; `none` models the Go panic of
`p[0:1]` when a segment is empty. -/
def camelCaseRest : List String → Option (List String)
  | [] => some []
  | p :: ps =>
    match p.data with
    | [] => none
    | c :: cs => (camelCaseRest ps).map (fun rs => chStr (c.toUpper :: cs) :: rs)

/-- `generator.go` `camelCase`: splits on `'_'`, keeps the first segment,
uppercases the first character of every later segment and joins everything. -/
def camelCase (s : String) : Option String :=
  match goSplit s '_' with
  | [] => some ""
  | p0 :: rest => (camelCaseRest rest).map (fun parts => String.join (p0 :: parts))

/-- `generator.go` `tsImportName`: the base name of `name` with its
extension cut off by byte slicing. -/
def tsImportName (name : String) : String :=
  let base := goPathBase name
  chStr (base.data.take (base.data.length - (goPathExt base).data.length))

/-- `generator.go` `importName`: `tsImportName(fp.GetPackage())`. -/
def importName (fp : FileDescriptorProto) : String :=
  tsImportName fp.package

/-- `generator.go` `tsImportPath`: the dot-separated package turned into a
directory path. -/
def tsImportPath (fd : FileDescriptorProto) : String :=
  goPathJoin (goSplit fd.package '.')

/-- `generator.go` `relativeImportBase`: one `"../"` per segment of
`tsImportPath`. -/
def relativeImportBase (fd : FileDescriptorProto) : String :=
  goRepeat "../" (goSplit (tsImportPath fd) '/').length

/-- `generator.go` `tsFileName`: the package path joined with the file's
base name, its extension replaced by `.ts`. -/
def tsFileName (fd : FileDescriptorProto) : String :=
  let filename := goTrimSuffix (goPathBase fd.name) (goPathExt fd.name) ++ ".ts"
  goPathJoin [tsImportPath fd, filename]

/-- `generator.go` `singularFieldType`, paired with the list of diagnostics
it prints: the seven listed scalar types map to `"number"`, enums and
messages go through `removePkg` with the well-known `Timestamp` override,
and every other wire type falls through the `default` branch to `"string"`.
The `log.Printf` diagnostic in that `default` branch is commented out in
the source, so no branch emits a diagnostic. -/
def singularFieldTypeL (m : DescriptorProto) (f : FieldDescriptorProto) : String × List String :=
  match f.type' with
  | .TYPE_DOUBLE | .TYPE_FIXED32 | .TYPE_FIXED64 | .TYPE_INT32
  | .TYPE_INT64 | .TYPE_UINT32 | .TYPE_UINT64 => ("number", [])
  | .TYPE_ENUM => (removePkg f.typeName, [])
  | .TYPE_STRING => ("string", [])
  | .TYPE_BOOL => ("boolean", [])
  | .TYPE_MESSAGE =>
    let name := f.typeName
    if name = ".google.protobuf.Timestamp" then ("Date", [])
    else (removePkg name, [])
  | _ => ("string", [])

/-- The value component of `singularFieldTypeL`. -/
def singularFieldType (m : DescriptorProto) (f : FieldDescriptorProto) : String :=
  (singularFieldTypeL m f).1

example : camelCase "created_at" = some "createdAt" := by decide
example : camelCase "foo_" = none := by decide
example : removePkg ".pkg.Item" = "Item" := by decide
example : removePkg ".shop.v1.Item" = "v1_Item" := by decide

/-! ## The intermediate model (`importValues`, `enumValues`, `messageValues`,
`serviceValues`, `protoFile`) and the template-level functions -/

structure importValues where
  Name : String
  Path : String
deriving DecidableEq, Repr

structure enumKeyVal where
  Name : String
  Value : Int
deriving DecidableEq, Repr

structure enumValues where
  Name : String
  Values : List enumKeyVal
deriving DecidableEq, Repr

/-- The per-field model.  The source's `generate` additionally stores the
`IsEnum` flag it derives from the wire type. -/
structure fieldValues where
  Name : String
  Field : String
  Type' : String
  IsEnum : Bool
  IsRepeated : Bool
deriving DecidableEq, Repr

/-- The per-message model; recursive through `NestedTypes` (which the
builder never populates, nested messages being unsupported). -/
inductive messageValues where
  | mk (Name Interface JSONInterface : String) (Fields : List fieldValues)
      (NestedTypes : List messageValues) (NestedEnums : List enumValues)

def messageValues.Name : messageValues → String
  | .mk n _ _ _ _ _ => n

def messageValues.Interface : messageValues → String
  | .mk _ i _ _ _ _ => i

def messageValues.JSONInterface : messageValues → String
  | .mk _ _ j _ _ _ => j

def messageValues.Fields : messageValues → List fieldValues
  | .mk _ _ _ fs _ _ => fs

def messageValues.NestedTypes : messageValues → List messageValues
  | .mk _ _ _ _ nt _ => nt

def messageValues.NestedEnums : messageValues → List enumValues
  | .mk _ _ _ _ _ ne => ne

/-- The per-method model; the `Path` member is never assigned by the
builder, so it holds Go's zero value. -/
structure serviceMethodValues where
  Name : String
  Path : String
  InputType : String
  OutputType : String
deriving DecidableEq, Repr

structure serviceValues where
  Package : String
  Name : String
  Interface : String
  Methods : List serviceMethodValues
deriving DecidableEq, Repr

/-- The per-file model built by `generate`.  The source's `Imports` member
is a Go `map[string]*importValues`; it is modelled as an association list
in insertion order, with key-based deduplication performed at insertion
(`AddImport`), which preserves exactly the map's key set. -/
structure protoFile where
  Output : String
  RelativeImportBase : String
  Imports : List (String × importValues)
  Messages : List messageValues
  Services : List serviceValues
  Enums : List enumValues

/-- `typeToInterface`: `"I" + typeName`. -/
def typeToInterface (typeName : String) : String :=
  "I" ++ typeName

/-- `typeToJSONInterface`: `"I" + typeName + "JSON"`. -/
def typeToJSONInterface (typeName : String) : String :=
  "I" ++ typeName ++ "JSON"

/-- `methodName`: `strings.ToLower(method[0:1]) + method[1:]`; `none`
models the Go slice-bounds panic on an empty method name. -/
def methodName (method : String) : Option String :=
  match method.data with
  | [] => none
  | c :: cs => some (chStr (c.toLower :: cs))

/-- `generator.go` `fieldType` (the template helper applied to every field
occurrence): a `"Date"` value degrades to `"string"`, then the repeated
flag appends `"[]"`. -/
def fieldType (f : fieldValues) : String :=
  let t := if f.Type' = "Date" then "string" else f.Type'
  if f.IsRepeated then t ++ "[]" else t

/-- The field line of the public interface in `messageTemplate`:
`{{.Field }}?: {{. | fieldType}}` inside `export interface {{.Interface}}`. -/
def interfaceFieldLine (f : fieldValues) : String :=
  f.Field ++ "?: " ++ fieldType f

/-- The field line of the JSON-shape interface in `messageTemplate`:
`{{$v.Name}}?: {{ $v | fieldType }}` inside `export interface {{.JSONInterface}}`. -/
def jsonInterfaceFieldLine (f : fieldValues) : String :=
  f.Name ++ "?: " ++ fieldType f

/-! ## The dependency resolver

The resolver's own source file is not part of the provided sources; its
operations are modelled from the specification (§4.2). -/

/-- Modelled from the spec: the `dependencyResolver` state (its source file
is absent from the provided sources) — a registry mapping each declared
fully-qualified schema name to its owning file (§4.2); modelled as an
association list in declaration order, first binding winning on lookup. -/
abbrev Registry := List (String × FileDescriptorProto)

/-- Modelled from the spec: `resolver.Set` (absent from the provided
sources) — `Declare(file, schemaLocalName)` of §4.2, registering the
fully-qualified name `.package.LocalName` as declared by `file`. -/
def resolverSet (r : Registry) (file : FileDescriptorProto) (typeName : String) : Registry :=
  r ++ [(fullTypeName file typeName, file)]

/-- Modelled from the spec: `resolver.Resolve` (absent from the provided
sources) — `Resolve(fullyQualifiedName) → (owningFile, found)` of §4.2;
`none` models the error return for a name absent from the registry. -/
def resolverResolve (r : Registry) (typeName : String) : Option FileDescriptorProto :=
  List.lookup typeName r

/-- Modelled from the spec: `resolver.TypeName` (absent from the provided
sources) — `OutputTypeName` of §4.2, combining `Resolve` with the field
type mapper's well-known-type overrides and package stripping.  Both call
sites in `generate` pass a name already run through the mapper
(`singularFieldType` or `removePkg`), on which these operations have
nothing left to do, so the entry point is modelled as returning its
argument. -/
def resolverTypeName (r : Registry) (file : FileDescriptorProto) (typeName : String) : String :=
  typeName

/-- The import keys of a file model: the key set of the source's
`Imports` map. -/
def importKeys (pf : protoFile) : List String :=
  pf.Imports.map Prod.fst

/-- Modelled from the spec: `protoFile.AddImport` (absent from the provided
sources) — records an ImportRequirement against the current file, keyed by
the owning file's package-derived output path, multiple types from the same
external file collapsing into the one entry for that file (§3); the entry
carries the name and relative path the `importTemplate` renders.  The
`typeName` argument is the specific output identifier needed; the source's
`importValues` has no member to hold it. -/
def AddImport (pf : protoFile) (fp : FileDescriptorProto) (typeName : String) : protoFile :=
  if tsFileName fp ∈ importKeys pf then pf
  else { pf with
    Imports := pf.Imports ++
      [(tsFileName fp, { Name := importName fp, Path := relativeImportBase fp ++ goTrimSuffix (tsFileName fp) ".ts" })] }

/-! ## The model-building pass of `generate`

`generate` walks the request's files once, threading the resolver registry
and each file's model.  Go panics abort the run and are modelled by
`Option`; the strings printed through `log.Printf` during the walk are
collected in a list. -/

/-- The repeated import-recording block of `generate`:
`fp, err := resolver.Resolve(tn); if err == nil { if !sameFile(fp, file) { pfile.AddImport(fp, typeName) } }`. -/
def addImportIfExternal (r : Registry) (file : FileDescriptorProto) (pf : protoFile)
    (tn typeName : String) : protoFile :=
  match resolverResolve r tn with
  | some fp => if sameFile fp file then pf else AddImport pf fp typeName
  | none => pf

/-- The enum model built by `generate`'s file-level enum loop. -/
def buildEnum (enum : EnumDescriptorProto) : enumValues :=
  { Name := enum.name
    Values := enum.value.map (fun v => { Name := v.name, Value := v.number }) }

/-- The enum model built by `generate`'s nested-enum loop:
`fmt.Sprintf("%s_%s", message.GetName(), enum.GetName())`. -/
def buildNestedEnum (message : DescriptorProto) (enum : EnumDescriptorProto) : enumValues :=
  { Name := message.name ++ "_" ++ enum.name
    Values := enum.value.map (fun v => { Name := v.name, Value := v.number }) }

/-- `generate`'s file-level enum loop: declare each enum and model it. -/
def processEnums (file : FileDescriptorProto) : Registry → List EnumDescriptorProto →
    Registry × List enumValues
  | r, [] => (r, [])
  | r, e :: es =>
    let pe := processEnums file (resolverSet r file e.name) es
    (pe.1, buildEnum e :: pe.2)

/-- One iteration of `generate`'s field loop: compute the output type,
record a cross-file import when the reference resolves to another file, and
model the field (`camelCase` is the Go panic point). -/
def processField (r : Registry) (file : FileDescriptorProto) (message : DescriptorProto)
    (pf : protoFile) (field : FieldDescriptorProto) : Option (protoFile × fieldValues) :=
  let typeName := resolverTypeName r file (singularFieldType message field)
  let pf1 := addImportIfExternal r file pf field.typeName typeName
  (camelCase field.name).map (fun cc =>
    (pf1,
      { Name := field.name
        Field := cc
        Type' := typeName
        IsEnum := field.type' == FieldType.TYPE_ENUM
        IsRepeated := isRepeated field }))

/-- `generate`'s field loop over one message. -/
def processFields (r : Registry) (file : FileDescriptorProto) (message : DescriptorProto) :
    protoFile → List FieldDescriptorProto → Option (protoFile × List fieldValues)
  | pf, [] => some (pf, [])
  | pf, f :: fs =>
    match processField r file message pf f with
    | none => none
    | some x =>
      (processFields r file message x.1 fs).map (fun y => (y.1, x.2 :: y.2))

/-- The warning `generate` prints for a message, via `log.Printf`, when the
message contains nested message declarations: one line per such message,
however many nested declarations it has. -/
def nestedWarning (message : DescriptorProto) : List String :=
  if 0 < message.nestedType.length then ["warning: nested messages are not supported yet"]
  else []

/-- One iteration of `generate`'s message loop: declare the message and its
two interfaces, warn when nested messages are present (their content is
skipped: `NestedTypes` is never filled), model the nested enums, and run
the field loop. -/
def processMessage (r : Registry) (file : FileDescriptorProto) (pf : protoFile)
    (message : DescriptorProto) :
    Option (Registry × protoFile × messageValues × List String) :=
  let name := message.name
  let tsInterface := typeToInterface name
  let jsonInterface := typeToJSONInterface name
  let r1 := resolverSet r file name
  let r2 := resolverSet r1 file tsInterface
  let r3 := resolverSet r2 file jsonInterface
  let nestedEnums := message.enumType.map (buildNestedEnum message)
  match processFields r3 file message pf message.field with
  | none => none
  | some x =>
    some (r3, x.1, messageValues.mk name tsInterface jsonInterface x.2 [] nestedEnums,
      nestedWarning message)

/-- `generate`'s message loop over one file. -/
def processMessages (file : FileDescriptorProto) : Registry → protoFile →
    List DescriptorProto → Option (Registry × protoFile × List messageValues × List String)
  | r, pf, [] => some (r, pf, [], [])
  | r, pf, m :: ms =>
    match processMessage r file pf m with
    | none => none
    | some x =>
      (processMessages file x.1 x.2.1 ms).map
        (fun y => (y.1, y.2.1, x.2.2.1 :: y.2.2.1, x.2.2.2 ++ y.2.2.2))

/-- One iteration of `generate`'s method loop: map the input and output
types through `removePkg`, and record an import for each side that
resolves to another file. -/
def processMethod (r : Registry) (file : FileDescriptorProto) (pf : protoFile)
    (method : MethodDescriptorProto) : protoFile × serviceMethodValues :=
  let inputType := resolverTypeName r file (removePkg method.inputType)
  let outputType := resolverTypeName r file (removePkg method.outputType)
  let pf1 := addImportIfExternal r file pf method.inputType inputType
  let pf2 := addImportIfExternal r file pf1 method.outputType outputType
  (pf2, { Name := method.name, Path := "", InputType := inputType, OutputType := outputType })

/-- `generate`'s method loop over one service. -/
def processMethods (r : Registry) (file : FileDescriptorProto) :
    protoFile → List MethodDescriptorProto → protoFile × List serviceMethodValues
  | pf, [] => (pf, [])
  | pf, m :: ms =>
    let pm := processMethod r file pf m
    let pms := processMethods r file pm.1 ms
    (pms.1, pm.2 :: pms.2)

/-- One iteration of `generate`'s service loop: declare the service, then
run the method loop. -/
def processService (r : Registry) (file : FileDescriptorProto) (pf : protoFile)
    (service : ServiceDescriptorProto) : Registry × protoFile × serviceValues :=
  let r1 := resolverSet r file service.name
  let pm := processMethods r1 file pf service.method
  (r1, pm.1,
    { Package := file.package
      Name := service.name
      Interface := typeToInterface service.name
      Methods := pm.2 })

/-- `generate`'s service loop over one file. -/
def processServices (file : FileDescriptorProto) : Registry → protoFile →
    List ServiceDescriptorProto → Registry × protoFile × List serviceValues
  | r, pf, [] => (r, pf, [])
  | r, pf, s :: ss =>
    let ps := processService r file pf s
    let pss := processServices file ps.1 ps.2.1 ss
    (pss.1, pss.2.1, ps.2.2 :: pss.2.2)

/-- `generate`'s body for one input file: build the empty model with its
output path, then run the enum, message and service loops. -/
def processFile (r : Registry) (file : FileDescriptorProto) :
    Option (Registry × protoFile × List String) :=
  let pf0 : protoFile :=
    { Output := tsFileName file
      RelativeImportBase := relativeImportBase file
      Imports := []
      Messages := []
      Services := []
      Enums := [] }
  let pe := processEnums file r file.enumType
  match processMessages file pe.1 pf0 file.messageType with
  | none => none
  | some q =>
    let ps := processServices file q.1 q.2.1 file.service
    some (ps.1, { ps.2.1 with Enums := pe.2, Messages := q.2.2.1, Services := ps.2.2 }, q.2.2.2)

/-- `generate`'s outer loop over the request's files, threading the
resolver registry. -/
def generateFiles : Registry → List FileDescriptorProto →
    Option (Registry × List protoFile × List String)
  | r, [] => some (r, [], [])
  | r, file :: files =>
    match processFile r file with
    | none => none
    | some x =>
      (generateFiles x.1 files).map (fun y => (y.1, x.2.1 :: y.2.1, x.2.2 ++ y.2.2))

/-! ## The emission loop of `generate`

`generate` groups the file models by `tsImportPath` in the Go map
`outputFiles` and then ranges over that map to append each model's output
file and one `index.ts` per package directory to the response. -/

/-- Insert one model under its package path, mirroring
`outputFiles[tsImportPath(file)] = append(outputFiles[tsImportPath(file)], pfile)`:
the key set and each key's slice are exactly the Go map's. -/
def upsertOutput : List (String × List protoFile) → String → protoFile →
    List (String × List protoFile)
  | [], k, pf => [(k, [pf])]
  | (k', pfs) :: rest, k, pf =>
    if k' = k then (k', pfs ++ [pf]) :: rest
    else (k', pfs) :: upsertOutput rest k pf

/-- The `outputFiles` map of `generate`, built from the files and their
models in request order. -/
def outputGroups (l : List (String × protoFile)) : List (String × List protoFile) :=
  l.foldl (fun m kp => upsertOutput m kp.1 kp.2) []

/-- The ordered names appended to the response by `generate`'s emission
loop (lines 174–203): Go ranges over the `outputFiles` map, whose
iteration order is unspecified and varies between runs; that order is the
`order` parameter, an enumeration of the map's keys.  For every key, each
grouped model's `Output` is appended, followed by
`path.Join(tsPath, "index.ts")`. -/
def emittedNames (groups : List (String × List protoFile)) (order : List String) :
    List String :=
  order.flatMap (fun k =>
    match List.lookup k groups with
    | some pfs => pfs.map protoFile.Output ++ [goPathJoin [k, "index.ts"]]
    | none => [])

/-! ## Concrete fixtures -/

/-- An otherwise empty message descriptor (the `m` parameter of
`singularFieldType` is not read by the source). -/
def demoMsg : DescriptorProto := .mk "M" [] [] []

/-- A singular field of the well-known `Timestamp` message type. -/
def tsField : FieldDescriptorProto :=
  { name := "created_at", type' := .TYPE_MESSAGE,
    typeName := ".google.protobuf.Timestamp", label := none }

/-- The field model `generate` builds for `tsField` (singular). -/
def tsFieldValues : fieldValues :=
  { Name := "created_at", Field := "createdAt",
    Type' := singularFieldType demoMsg tsField, IsEnum := false, IsRepeated := false }

/-- A repeated field of the well-known `Timestamp` message type. -/
def tsFieldRep : FieldDescriptorProto :=
  { name := "updated_at", type' := .TYPE_MESSAGE,
    typeName := ".google.protobuf.Timestamp", label := some .LABEL_REPEATED }

/-- The field model `generate` builds for `tsFieldRep` (repeated). -/
def tsFieldValuesRep : fieldValues :=
  { Name := "updated_at", Field := "updatedAt",
    Type' := singularFieldType demoMsg tsFieldRep, IsEnum := false, IsRepeated := true }

/-! ## C1: Timestamp fields in the two interfaces -/

/-- C1, counterexample: the claim says a singular `Timestamp` field is
declared as `Date` in the generated public interface.  On the code, the
mapper does resolve the singular type to `"Date"`, but `messageTemplate`
renders the public-interface field line through the same `fieldType`
helper as the JSON-shape line, and `fieldType` turns `"Date"` into
`"string"` unconditionally — so the public interface declares the field as
`string`, not as a `Date` value. -/
theorem timestamp_public_interface_is_string_cex :
    singularFieldType demoMsg tsField = "Date"
  ∧ interfaceFieldLine tsFieldValues = "createdAt?: string"
  ∧ ¬ interfaceFieldLine tsFieldValues = "createdAt?: Date"
  ∧ jsonInterfaceFieldLine tsFieldValues = "created_at?: string" := by
  decide

/-- C1, amended: for every field whose resolved singular type is the
`Timestamp` override `"Date"`, both the public-interface field line and the
JSON-shape field line render the type as `string` in the singular case and
`string[]` in the repeated case — the `Date` override is degraded to its
wire string form for both interfaces, independently in the scalar and
repeated cases. -/
theorem timestamp_fieldType_degrades_to_string (f : fieldValues) (h : f.Type' = "Date") :
    interfaceFieldLine f = f.Field ++ "?: " ++ (if f.IsRepeated then "string[]" else "string")
  ∧ jsonInterfaceFieldLine f = f.Name ++ "?: " ++ (if f.IsRepeated then "string[]" else "string") := by
  unfold interfaceFieldLine jsonInterfaceFieldLine fieldType
  rw [h]
  cases hr : f.IsRepeated <;> simp

/-- C1, witness: the amended statement evaluated at the concrete singular
and repeated `Timestamp` field models. -/
theorem timestamp_fieldType_degrades_witness :
    (interfaceFieldLine tsFieldValues
        = tsFieldValues.Field ++ "?: " ++ (if tsFieldValues.IsRepeated then "string[]" else "string")
      ∧ jsonInterfaceFieldLine tsFieldValues
        = tsFieldValues.Name ++ "?: " ++ (if tsFieldValues.IsRepeated then "string[]" else "string"))
  ∧ (interfaceFieldLine tsFieldValuesRep
        = tsFieldValuesRep.Field ++ "?: " ++ (if tsFieldValuesRep.IsRepeated then "string[]" else "string")
      ∧ jsonInterfaceFieldLine tsFieldValuesRep
        = tsFieldValuesRep.Name ++ "?: " ++ (if tsFieldValuesRep.IsRepeated then "string[]" else "string")) :=
  ⟨timestamp_fieldType_degrades_to_string tsFieldValues rfl,
   timestamp_fieldType_degrades_to_string tsFieldValuesRep rfl⟩

/-! ## C2: the scalar rows of the §4.1 table -/

/-- C2: the claim says every §4.1 scalar wire type — including `float`,
`sint32`/`sint64` and `sfixed32`/`sfixed64` — maps to the numeric output
type.  On the code, `singularFieldType`'s `switch` lists only `double`,
`fixed32`, `fixed64`, `int32`, `int64`, `uint32` and `uint64`; the five
missing scalar types fall through the `default` branch to `"string"`.
This theorem evaluates the code at those failing inputs (and at `double`,
`string` and `bool`, which do follow the table). -/
theorem float_sint_sfixed_map_to_string_bug :
    singularFieldType demoMsg { name := "rate", type' := .TYPE_FLOAT, typeName := "", label := none } = "string"
  ∧ singularFieldType demoMsg { name := "d1", type' := .TYPE_SINT32, typeName := "", label := none } = "string"
  ∧ singularFieldType demoMsg { name := "d2", type' := .TYPE_SINT64, typeName := "", label := none } = "string"
  ∧ singularFieldType demoMsg { name := "d3", type' := .TYPE_SFIXED32, typeName := "", label := none } = "string"
  ∧ singularFieldType demoMsg { name := "d4", type' := .TYPE_SFIXED64, typeName := "", label := none } = "string"
  ∧ ¬ singularFieldType demoMsg { name := "rate", type' := .TYPE_FLOAT, typeName := "", label := none } = "number"
  ∧ singularFieldType demoMsg { name := "d5", type' := .TYPE_DOUBLE, typeName := "", label := none } = "number"
  ∧ singularFieldType demoMsg { name := "d6", type' := .TYPE_STRING, typeName := "", label := none } = "string"
  ∧ singularFieldType demoMsg { name := "d7", type' := .TYPE_BOOL, typeName := "", label := none } = "boolean" := by
  decide

/-! ## C3: package stripping in `removePkg` -/

/-- C3, counterexample: the claim says the entire package prefix is
stripped for a package of any number of dot-separated segments.  For the
two-segment package `shop.v1`, `removePkg ".shop.v1.Item"` keeps the
second segment: the result is `"v1_Item"`, not the local name `"Item"`. -/
theorem removePkg_multisegment_cex :
    removePkg ".shop.v1.Item" = "v1_Item"
  ∧ ¬ removePkg ".shop.v1.Item" = "Item" := by
  decide

/-- C3, amended: `removePkg` drops only the leading empty component and the
first package segment of the fully-qualified name; the remaining
dot-separated components are joined with underscores.  The result is the
local name exactly when the package has a single segment. -/
theorem removePkg_strips_first_segment (s p : String) (rest : List String)
    (h1 : goSplit s '.' = "" :: p :: rest)
    (h2 : goSplit (String.intercalate (chStr ['.']) rest) '.' = rest)
    (h3 : rest ≠ []) :
    removePkg s = String.intercalate "_" rest := by
  match rest, h2, h3 with
  | [r], h2, _ =>
    have e1 : goSplitN s '.' 3 = ["", p, r] := by
      simp [goSplitN, h1]
    have h2' : goSplit r '.' = [r] := by
      rwa [show String.intercalate (chStr ['.']) [r] = r from rfl] at h2
    simp [removePkg, e1, h2']
  | r1 :: r2 :: rs, h2, _ =>
    have e1 : goSplitN s '.' 3
        = ["", p] ++ [String.intercalate (chStr ['.']) (r1 :: r2 :: rs)] := by
      simp only [goSplitN, h1, List.length_cons]
      rw [if_neg (by omega)]
      rfl
    simp only [removePkg, e1, List.getLastD_concat]
    rw [h2]

/-- C3, witness: the amended statement evaluated at the two-segment package
name `.shop.v1.Item`. -/
theorem removePkg_strips_first_segment_witness :
    removePkg ".shop.v1.Item" = String.intercalate "_" ["v1", "Item"] :=
  removePkg_strips_first_segment ".shop.v1.Item" "shop" ["v1", "Item"]
    (by decide) (by decide) (by decide)

/-! ## C7: observability of the fallback -/

/-- C7, counterexample: the claim says the fall-back to `"string"` for an
unrecognized wire type is observable (a diagnostic is logged).  On the
code, the `log.Printf` in the `default` branch is commented out: at the
unrecognized wire type `TYPE_GROUP`, the mapper returns `"string"` and its
diagnostic output is empty. -/
theorem fallback_log_is_silent_cex :
    (singularFieldTypeL demoMsg { name := "grp", type' := .TYPE_GROUP, typeName := "", label := none }).1 = "string"
  ∧ (singularFieldTypeL demoMsg { name := "grp", type' := .TYPE_GROUP, typeName := "", label := none }).2 = [] := by
  decide

/-- C7, amended: for every wire type outside the recognized cases of the
mapper's `switch` (`float`, `sint32`, `sint64`, `sfixed32`, `sfixed64`,
`group`, `bytes`), the mapper falls back to `"string"` silently — no
diagnostic is produced, the `log.Printf` in that branch being commented
out in the source. -/
theorem unrecognized_type_falls_back_silently (m : DescriptorProto) (f : FieldDescriptorProto)
    (h : f.type' = .TYPE_FLOAT ∨ f.type' = .TYPE_GROUP ∨ f.type' = .TYPE_BYTES
       ∨ f.type' = .TYPE_SFIXED32 ∨ f.type' = .TYPE_SFIXED64
       ∨ f.type' = .TYPE_SINT32 ∨ f.type' = .TYPE_SINT64) :
    singularFieldTypeL m f = ("string", []) := by
  rcases h with h | h | h | h | h | h | h <;> simp [singularFieldTypeL, h]

/-- C7, witness: the amended statement evaluated at a `bytes` field. -/
theorem unrecognized_type_falls_back_witness :
    singularFieldTypeL demoMsg { name := "payload", type' := .TYPE_BYTES, typeName := "", label := none }
      = ("string", []) :=
  unrecognized_type_falls_back_silently demoMsg _ (Or.inr (Or.inr (Or.inl rfl)))

/-! ## C10: totality of the casing transforms -/

/-- A syntactically legal protobuf identifier, per the protobuf language
grammar: a letter followed by letters, decimal digits or underscores. -/
def isProtoIdent (s : String) : Bool :=
  match s.data with
  | [] => false
  | c :: cs => c.isAlpha && cs.all (fun d => d.isAlpha || d.isDigit || d = '_')

/-- A file whose single message has a field legally named `foo_`. -/
def demoFileBad : FileDescriptorProto :=
  { name := "bad.proto", package := "bad",
    enumType := [],
    messageType :=
      [.mk "B" [{ name := "foo_", type' := .TYPE_STRING, typeName := "", label := none }] [] []],
    service := [] }

/-- C10: the claim says the camel-case transform is total over all
syntactically legal protobuf field names.  It is not: `"foo_"` and
`"a__b"` are legal identifiers, yet `camelCase` reaches the out-of-bounds
slice `p[0:1]` on their empty underscore-separated segment (modelled by
`none`), and `methodName` likewise errs on the empty string; running the
pass on a file containing such a field name panics mid-run (the pass
returns `none`). -/
theorem camelCase_panics_on_trailing_underscore :
    isProtoIdent "foo_" = true
  ∧ camelCase "foo_" = none
  ∧ isProtoIdent "a__b" = true
  ∧ camelCase "a__b" = none
  ∧ methodName "" = none
  ∧ camelCase "foo_bar" = some "fooBar"
  ∧ processFile [] demoFileBad = none :=
  ⟨by decide, by decide, by decide, by decide, by decide, by decide, rfl⟩


/-! ## Structure lemmas about the model-building pass -/

/-- `processField` unfolded: the import step happens unconditionally, the
field model is built when `camelCase` does not panic. -/
lemma processField_eq (r : Registry) (file : FileDescriptorProto) (message : DescriptorProto)
    (pf : protoFile) (field : FieldDescriptorProto) :
    processField r file message pf field
      = (camelCase field.name).map (fun cc =>
          (addImportIfExternal r file pf field.typeName (singularFieldType message field),
            { Name := field.name
              Field := cc
              Type' := singularFieldType message field
              IsEnum := field.type' == FieldType.TYPE_ENUM
              IsRepeated := isRepeated field })) := rfl

/-- A successful `processField` records the import step in the model and
carries the field's wire name and mapped type. -/
lemma processField_some (r : Registry) (file : FileDescriptorProto) (msg : DescriptorProto)
    (pf : protoFile) (f : FieldDescriptorProto) (x : protoFile × fieldValues)
    (h : processField r file msg pf f = some x) :
    x.1 = addImportIfExternal r file pf f.typeName (singularFieldType msg f)
    ∧ x.2.Name = f.name ∧ x.2.Type' = singularFieldType msg f := by
  rw [processField_eq] at h
  cases hc : camelCase f.name with
  | none => rw [hc] at h; exact Option.noConfusion h
  | some cc =>
    rw [hc] at h
    simp only [Option.map_some', Option.some.injEq] at h
    subst h
    exact ⟨rfl, rfl, rfl⟩

/-- The names and output types of the field models are exactly those of the
processed fields, in order. -/
lemma processFields_shape (r : Registry) (file : FileDescriptorProto) (msg : DescriptorProto)
    (fs : List FieldDescriptorProto) :
    ∀ (pf : protoFile) (z : protoFile × List fieldValues),
      processFields r file msg pf fs = some z →
      z.2.map (fun fv => (fv.Name, fv.Type'))
        = fs.map (fun f => (f.name, singularFieldType msg f)) := by
  induction fs with
  | nil =>
    intro pf z h
    replace h : some (pf, ([] : List fieldValues)) = some z := h
    simp only [Option.some.injEq] at h
    simp [← h]
  | cons f fs ih =>
    intro pf z h
    replace h :
        (match processField r file msg pf f with
          | none => none
          | some x => (processFields r file msg x.1 fs).map (fun y => (y.1, x.2 :: y.2))) = some z := h
    cases hc : processField r file msg pf f with
    | none => rw [hc] at h; exact Option.noConfusion h
    | some x =>
      rw [hc] at h
      replace h : (processFields r file msg x.1 fs).map (fun y => (y.1, x.2 :: y.2)) = some z := h
      cases hrec : processFields r file msg x.1 fs with
      | none => rw [hrec] at h; exact Option.noConfusion h
      | some y =>
        rw [hrec] at h
        simp only [Option.map_some', Option.some.injEq] at h
        obtain ⟨_, hname, htype⟩ := processField_some r file msg pf f x hc
        subst h
        simp only [List.map_cons, hname, htype]
        rw [ih x.1 y hrec]

/-- The file-level enum loop models exactly the file's enums, in order. -/
lemma processEnums_snd (file : FileDescriptorProto) (es : List EnumDescriptorProto) :
    ∀ r : Registry, (processEnums file r es).2 = es.map buildEnum := by
  induction es with
  | nil => intro r; rfl
  | cons e es ih => intro r; simp [processEnums, ih]

/-- The message loop models exactly the file's messages in order: their
names, their empty `NestedTypes`, their nested enum names, the warning
lines printed, and their fields' names and mapped types. -/
lemma processMessages_shape (file : FileDescriptorProto) (ms : List DescriptorProto) :
    ∀ (r : Registry) (pf : protoFile) (z : Registry × protoFile × List messageValues × List String),
      processMessages file r pf ms = some z →
      z.2.2.1.map messageValues.Name = ms.map DescriptorProto.name
      ∧ (∀ mv ∈ z.2.2.1, mv.NestedTypes = [])
      ∧ z.2.2.1.map (fun mv => mv.NestedEnums.map enumValues.Name)
          = ms.map (fun m => m.enumType.map (fun e => m.name ++ "_" ++ e.name))
      ∧ z.2.2.2 = ms.flatMap nestedWarning
      ∧ z.2.2.1.map (fun mv => mv.Fields.map (fun fv => (fv.Name, fv.Type')))
          = ms.map (fun m => m.field.map (fun f => (f.name, singularFieldType m f))) := by
  induction ms with
  | nil =>
    intro r pf z h
    replace h : some (r, pf, ([] : List messageValues), ([] : List String)) = some z := h
    simp only [Option.some.injEq] at h
    simp [← h]
  | cons m ms ih =>
    intro r pf z h
    replace h :
        (match processMessage r file pf m with
          | none => none
          | some x =>
            (processMessages file x.1 x.2.1 ms).map
              (fun y => (y.1, y.2.1, x.2.2.1 :: y.2.2.1, x.2.2.2 ++ y.2.2.2))) = some z := h
    cases hpm : processMessage r file pf m with
    | none => rw [hpm] at h; exact Option.noConfusion h
    | some x =>
      rw [hpm] at h
      replace h : (processMessages file x.1 x.2.1 ms).map
          (fun y => (y.1, y.2.1, x.2.2.1 :: y.2.2.1, x.2.2.2 ++ y.2.2.2)) = some z := h
      cases hrec : processMessages file x.1 x.2.1 ms with
      | none => rw [hrec] at h; exact Option.noConfusion h
      | some y =>
        rw [hrec] at h
        simp only [Option.map_some', Option.some.injEq] at h
        subst h
        obtain ⟨hN, hNT, hNE, hW, hF⟩ := ih x.1 x.2.1 y hrec
        -- structure of x from processMessage
        replace hpm :
            (match processFields
                (resolverSet (resolverSet (resolverSet r file m.name) file (typeToInterface m.name))
                  file (typeToJSONInterface m.name)) file m pf m.field with
              | none => none
              | some w =>
                some (resolverSet (resolverSet (resolverSet r file m.name) file (typeToInterface m.name))
                    file (typeToJSONInterface m.name), w.1,
                  messageValues.mk m.name (typeToInterface m.name) (typeToJSONInterface m.name) w.2 []
                    (m.enumType.map (buildNestedEnum m)),
                  nestedWarning m)) = some x := hpm
        cases hpf : processFields
            (resolverSet (resolverSet (resolverSet r file m.name) file (typeToInterface m.name))
              file (typeToJSONInterface m.name)) file m pf m.field with
        | none => rw [hpf] at hpm; exact Option.noConfusion hpm
        | some w =>
          rw [hpf] at hpm
          simp only [Option.some.injEq] at hpm
          subst hpm
          refine ⟨?_, ?_, ?_, ?_, ?_⟩
          · simp only [List.map_cons, messageValues.Name, hN]
          · intro mv hmv
            rcases List.mem_cons.mp hmv with hmv | hmv
            · rw [hmv]; rfl
            · exact hNT mv hmv
          · rw [List.map_cons, List.map_cons]
            congr 1
            show (m.enumType.map (buildNestedEnum m)).map enumValues.Name
              = m.enumType.map (fun e => m.name ++ "_" ++ e.name)
            rw [List.map_map]
            rfl
          · simp only [List.flatMap_cons, hW]
          · simp only [List.map_cons, messageValues.Fields, hF]
            congr 1
            exact processFields_shape _ file m m.field pf w hpf

/-- What one file's successful pass guarantees: the enum list is the file's
top-level enums, the message models carry the file's messages in order with
empty nested content and underscore-joined nested enum names, and the
printed warnings are one line per message that contains nested message
declarations. -/
lemma processFile_spec (r : Registry) (file : FileDescriptorProto)
    (z : Registry × protoFile × List String) (h : processFile r file = some z) :
    z.2.1.Enums = file.enumType.map buildEnum
    ∧ z.2.1.Messages.map messageValues.Name = file.messageType.map DescriptorProto.name
    ∧ (∀ mv ∈ z.2.1.Messages, mv.NestedTypes = [])
    ∧ z.2.1.Messages.map (fun mv => mv.NestedEnums.map enumValues.Name)
        = file.messageType.map (fun m => m.enumType.map (fun e => m.name ++ "_" ++ e.name))
    ∧ z.2.2 = file.messageType.flatMap nestedWarning
    ∧ z.2.1.Messages.map (fun mv => mv.Fields.map (fun fv => (fv.Name, fv.Type')))
        = file.messageType.map (fun m => m.field.map (fun f => (f.name, singularFieldType m f))) := by
  replace h :
      (match processMessages file (processEnums file r file.enumType).1
          { Output := tsFileName file
            RelativeImportBase := relativeImportBase file
            Imports := []
            Messages := []
            Services := []
            Enums := [] } file.messageType with
        | none => none
        | some q =>
          some ((processServices file q.1 q.2.1 file.service).1,
            { (processServices file q.1 q.2.1 file.service).2.1 with
                Enums := (processEnums file r file.enumType).2
                Messages := q.2.2.1
                Services := (processServices file q.1 q.2.1 file.service).2.2 },
            q.2.2.2)) = some z := h
  cases hm : processMessages file (processEnums file r file.enumType).1
      { Output := tsFileName file
        RelativeImportBase := relativeImportBase file
        Imports := []
        Messages := []
        Services := []
        Enums := [] } file.messageType with
  | none => rw [hm] at h; exact Option.noConfusion h
  | some q =>
    rw [hm] at h
    simp only [Option.some.injEq] at h
    subst h
    obtain ⟨hN, hNT, hNE, hW, hF⟩ := processMessages_shape file file.messageType _ _ q hm
    exact ⟨processEnums_snd file file.enumType r, hN, hNT, hNE, hW, hF⟩

/-! ## C8: nested enum naming and attachment -/

/-- C8: in every file model the pass builds, each message model's nested
enums are named by joining the owning message's name and the enum's own
name with an underscore and are attached to that message's model, while the
file's top-level enum list holds exactly the file-level enum declarations
(nested enums never land there). -/
theorem nested_enum_naming (r : Registry) (file : FileDescriptorProto)
    (z : Registry × protoFile × List String) (h : processFile r file = some z) :
    z.2.1.Messages.map (fun mv => mv.NestedEnums.map enumValues.Name)
      = file.messageType.map (fun m => m.enumType.map (fun e => m.name ++ "_" ++ e.name))
    ∧ z.2.1.Enums.map enumValues.Name = file.enumType.map EnumDescriptorProto.name := by
  obtain ⟨hE, _, _, hNE, _, _⟩ := processFile_spec r file z h
  refine ⟨hNE, ?_⟩
  rw [hE, List.map_map]
  rfl

/-- A file declaring `enum Color` at top level and `message Order` with a
nested `enum Status`. -/
def demoFileOrder : FileDescriptorProto :=
  { name := "order.proto"
    package := "shop"
    enumType := [{ name := "Color", value := [{ name := "RED", number := 0 }] }]
    messageType := [.mk "Order"
      [{ name := "order_id", type' := .TYPE_STRING, typeName := "", label := none }]
      []
      [{ name := "Status", value := [{ name := "OPEN", number := 0 }] }]]
    service := [] }

/-- The result of the pass on `demoFileOrder`. -/
def demoOrderZ : Registry × protoFile × List String :=
  (processFile [] demoFileOrder).getD
    ([], { Output := "", RelativeImportBase := "", Imports := [],
           Messages := [], Services := [], Enums := [] }, [])

/-- C8, witness: the nested-enum naming statement evaluated on the concrete
`Order`/`Status` file; the nested enum comes out as `Order_Status` on the
message model and the top-level list holds only `Color`. -/
theorem nested_enum_naming_witness :
    processFile [] demoFileOrder = some demoOrderZ
  ∧ (demoOrderZ.2.1.Messages.map (fun mv => mv.NestedEnums.map enumValues.Name)
        = demoFileOrder.messageType.map (fun m => m.enumType.map (fun e => m.name ++ "_" ++ e.name))
      ∧ demoOrderZ.2.1.Enums.map enumValues.Name = demoFileOrder.enumType.map EnumDescriptorProto.name)
  ∧ demoOrderZ.2.1.Messages.map (fun mv => mv.NestedEnums.map enumValues.Name) = [["Order_Status"]]
  ∧ demoOrderZ.2.1.Enums.map enumValues.Name = ["Color"] :=
  ⟨rfl, nested_enum_naming [] demoFileOrder demoOrderZ rfl, by decide, by decide⟩

/-! ## C9: the nested-message warning -/

/-- A file whose single message `Outer` contains two nested message
declarations. -/
def demoFileNested : FileDescriptorProto :=
  { name := "n.proto"
    package := "n"
    enumType := []
    messageType := [.mk "Outer" [] [.mk "In1" [] [] [], .mk "In2" [] [] []] []]
    service := [] }

/-- The result of the pass on `demoFileNested`. -/
def demoNestedZ : Registry × protoFile × List String :=
  (processFile [] demoFileNested).getD
    ([], { Output := "", RelativeImportBase := "", Imports := [],
           Messages := [], Services := [], Enums := [] }, [])

/-- C9, counterexample: the claim says the builder warns once per nested
message declaration encountered.  On the code, the warning is printed once
per *message* that has a non-empty nested list: for `Outer` with two nested
message declarations, the run prints one warning line, not two. -/
theorem nested_message_warning_count_cex :
    demoFileNested.messageType.map (fun m => m.nestedType.length) = [2]
  ∧ demoNestedZ.2.2 = ["warning: nested messages are not supported yet"]
  ∧ demoNestedZ.2.2.length = 1
  ∧ ¬ demoNestedZ.2.2.length = 2 := by
  decide

/-- C9, amended: the builder warns once per message containing at least one
nested message declaration (however many it contains), skips the nested
content entirely (every built message model has empty `NestedTypes`), and
continues processing the message's siblings (one model per declared
message). -/
theorem nested_message_warning_per_message (r : Registry) (file : FileDescriptorProto)
    (z : Registry × protoFile × List String) (h : processFile r file = some z) :
    z.2.2 = file.messageType.flatMap nestedWarning
    ∧ (∀ mv ∈ z.2.1.Messages, mv.NestedTypes = [])
    ∧ z.2.1.Messages.length = file.messageType.length := by
  obtain ⟨_, hN, hNT, _, hW, _⟩ := processFile_spec r file z h
  refine ⟨hW, hNT, ?_⟩
  have := congrArg List.length hN
  simpa using this

/-- C9, witness: the amended statement evaluated on `demoFileNested`. -/
theorem nested_message_warning_per_message_witness :
    processFile [] demoFileNested = some demoNestedZ
  ∧ (demoNestedZ.2.2 = demoFileNested.messageType.flatMap nestedWarning
      ∧ (∀ mv ∈ demoNestedZ.2.1.Messages, mv.NestedTypes = [])
      ∧ demoNestedZ.2.1.Messages.length = demoFileNested.messageType.length) :=
  ⟨rfl, nested_message_warning_per_message [] demoFileNested demoNestedZ rfl⟩

/-! ## C4: determinism of the emitted file sequence -/

/-- A request file in package `alpha`. -/
def fileAlpha : FileDescriptorProto :=
  { name := "alpha.proto", package := "alpha",
    enumType := [], messageType := [], service := [] }

/-- A request file in package `beta`. -/
def fileBeta : FileDescriptorProto :=
  { name := "beta.proto", package := "beta",
    enumType := [], messageType := [], service := [] }

/-- The models the pass builds for the two-package request. -/
def demoRunModels : List protoFile :=
  match generateFiles [] [fileAlpha, fileBeta] with
  | some (_, pfs, _) => pfs
  | none => []

/-- The `outputFiles` map of the two-package request. -/
def demoRunGroups : List (String × List protoFile) :=
  outputGroups (List.zip ([fileAlpha, fileBeta].map tsImportPath) demoRunModels)

/-- C4: the claim says two runs on a fixed request emit the same ordered
sequence of output files, ordered by a stable explicit rule.  The emission
loop of `generate` ranges over the Go map `outputFiles`, whose iteration
order is unspecified and changes between runs: for the two-package request,
the two key enumerations `["alpha", "beta"]` and `["beta", "alpha"]` are
both permutations of the map's key set, yet they produce different ordered
output sequences — the emitted order is decided by the map's iteration
order, not by a stable rule. -/
theorem output_order_depends_on_map_iteration :
    demoRunGroups.map Prod.fst = ["alpha", "beta"]
  ∧ List.Perm ["alpha", "beta"] (demoRunGroups.map Prod.fst)
  ∧ List.Perm ["beta", "alpha"] (demoRunGroups.map Prod.fst)
  ∧ emittedNames demoRunGroups ["alpha", "beta"]
      = ["alpha/alpha.ts", "alpha/index.ts", "beta/beta.ts", "beta/index.ts"]
  ∧ emittedNames demoRunGroups ["beta", "alpha"]
      = ["beta/beta.ts", "beta/index.ts", "alpha/alpha.ts", "alpha/index.ts"]
  ∧ ¬ emittedNames demoRunGroups ["alpha", "beta"]
      = emittedNames demoRunGroups ["beta", "alpha"] := by
  decide

/-! ## Registry-extension and import-set lemmas -/

/-- `ri` extends `r` by entries that all belong to `file` — the exact way
the registry grows while `generate` processes `file` (every `resolver.Set`
during the file's walk declares a name of that file). -/
def RegExt (r ri : Registry) (file : FileDescriptorProto) : Prop :=
  ∃ ext, ri = r ++ ext ∧ ∀ e ∈ ext, e.2 = file

lemma regExt_refl (r : Registry) (file : FileDescriptorProto) : RegExt r r file :=
  ⟨[], by simp, by simp⟩

lemma regExt_set {r ri : Registry} {file : FileDescriptorProto} (h : RegExt r ri file)
    (t : String) : RegExt r (resolverSet ri file t) file := by
  obtain ⟨ext, rfl, hext⟩ := h
  refine ⟨ext ++ [(fullTypeName file t, file)], by simp [resolverSet], ?_⟩
  intro e he
  rcases List.mem_append.mp he with he | he
  · exact hext e he
  · simp at he
    rw [he]

lemma lookup_append_some {k : String} {l₁ l₂ : Registry} {v : FileDescriptorProto}
    (h : List.lookup k l₁ = some v) : List.lookup k (l₁ ++ l₂) = some v := by
  induction l₁ with
  | nil => exact Option.noConfusion h
  | cons p l ih =>
    obtain ⟨a, b⟩ := p
    rw [List.cons_append]
    rw [List.lookup] at h ⊢
    cases hb : (k == a) with
    | true => rw [hb] at h; exact h
    | false => rw [hb] at h; exact ih h

lemma lookup_mem_snd {k : String} {l : Registry} {v : FileDescriptorProto}
    (h : List.lookup k l = some v) : v ∈ l.map Prod.snd := by
  induction l with
  | nil => exact Option.noConfusion h
  | cons p l ih =>
    obtain ⟨a, b⟩ := p
    rw [List.lookup] at h
    cases hb : (k == a) with
    | true =>
      rw [hb] at h
      simp only [Option.some.injEq] at h
      simp [← h]
    | false =>
      rw [hb] at h
      simp only [List.map_cons, List.mem_cons]
      exact Or.inr (ih h)

/-- Names resolvable before the file's walk stay resolvable, to the same
owner, at any point during the walk. -/
lemma resolve_stable {r ri : Registry} {file fp : FileDescriptorProto} {k : String}
    (hext : RegExt r ri file) (h : resolverResolve r k = some fp) :
    resolverResolve ri k = some fp := by
  obtain ⟨ext, rfl, _⟩ := hext
  exact lookup_append_some h

/-- Anything resolvable during the file's walk is either a file known
before the walk or the file itself. -/
lemma resolve_shape {r ri : Registry} {file fp : FileDescriptorProto} {k : String}
    (hext : RegExt r ri file) (h : resolverResolve ri k = some fp) :
    fp ∈ r.map Prod.snd ∨ fp = file := by
  obtain ⟨ext, rfl, hf⟩ := hext
  have := lookup_mem_snd h
  rw [List.map_append] at this
  rcases List.mem_append.mp this with hm | hm
  · exact Or.inl hm
  · right
    obtain ⟨e, he, rfl⟩ := List.mem_map.mp hm
    exact hf e he

/-- The invariant the import set keeps during a file's walk: keys are
pairwise distinct, and every key is the output path of a previously known
file other than the one being built. -/
def ImportInv (r : Registry) (file : FileDescriptorProto) (pf : protoFile) : Prop :=
  (importKeys pf).Nodup
  ∧ ∀ k ∈ importKeys pf, ∃ fp, k = tsFileName fp ∧ fp.name ≠ file.name ∧ fp ∈ r.map Prod.snd

lemma sameFile_false_iff {a b : FileDescriptorProto} :
    sameFile a b = false ↔ a.name ≠ b.name := by
  simp [sameFile]

lemma importKeys_AddImport (pf : protoFile) (fp : FileDescriptorProto) (t : String) :
    importKeys (AddImport pf fp t)
      = if tsFileName fp ∈ importKeys pf then importKeys pf
        else importKeys pf ++ [tsFileName fp] := by
  unfold AddImport
  split
  · rfl
  · simp [importKeys]

lemma mem_importKeys_AddImport (pf : protoFile) (fp : FileDescriptorProto) (t : String) :
    tsFileName fp ∈ importKeys (AddImport pf fp t) := by
  rw [importKeys_AddImport]
  split
  · assumption
  · simp

lemma importKeys_AddImport_mono {pf : protoFile} {k : String} (fp : FileDescriptorProto)
    (t : String) (h : k ∈ importKeys pf) : k ∈ importKeys (AddImport pf fp t) := by
  rw [importKeys_AddImport]
  split
  · exact h
  · exact List.mem_append_left _ h

/-- One import-recording block keeps every existing key. -/
lemma aie_mono {ri : Registry} {file : FileDescriptorProto} {pf : protoFile} {tn t k : String}
    (h : k ∈ importKeys pf) : k ∈ importKeys (addImportIfExternal ri file pf tn t) := by
  unfold addImportIfExternal
  cases resolverResolve ri tn with
  | none => exact h
  | some fp =>
    dsimp only
    split
    · exact h
    · exact importKeys_AddImport_mono fp t h

/-- One import-recording block preserves the import invariant. -/
lemma aie_inv {r ri : Registry} {file : FileDescriptorProto} {pf : protoFile} {tn t : String}
    (hext : RegExt r ri file) (hinv : ImportInv r file pf) :
    ImportInv r file (addImportIfExternal ri file pf tn t) := by
  unfold addImportIfExternal
  cases hres : resolverResolve ri tn with
  | none => exact hinv
  | some fp =>
    dsimp only
    split
    · exact hinv
    · next hsf =>
      have hsf' : sameFile fp file = false := eq_false_of_ne_true hsf
      obtain ⟨hnd, hshape⟩ := hinv
      constructor
      · rw [importKeys_AddImport]
        split
        · exact hnd
        · next hnew =>
          simpa [List.nodup_append] using ⟨hnd, hnew⟩
      · intro k hk
        rw [importKeys_AddImport] at hk
        have hname : fp.name ≠ file.name := sameFile_false_iff.mp hsf'
        have hmem : fp ∈ r.map Prod.snd := by
          rcases resolve_shape hext hres with hm | hm
          · exact hm
          · exact absurd (congrArg FileDescriptorProto.name hm) hname
        split at hk
        · exact hshape k hk
        · rcases List.mem_append.mp hk with hk | hk
          · exact hshape k hk
          · simp only [List.mem_singleton] at hk
            exact ⟨fp, hk, hname, hmem⟩

/-- A reference that resolves to another file lands in the import keys. -/
lemma aie_complete {ri : Registry} {file fp : FileDescriptorProto} {pf : protoFile}
    {tn t : String} (hres : resolverResolve ri tn = some fp)
    (hsf : sameFile fp file = false) :
    tsFileName fp ∈ importKeys (addImportIfExternal ri file pf tn t) := by
  unfold addImportIfExternal
  rw [hres]
  dsimp only
  rw [hsf]
  exact mem_importKeys_AddImport pf fp t

/-- An unresolved reference records nothing. -/
lemma aie_unresolved {ri : Registry} {file : FileDescriptorProto} {pf : protoFile}
    {tn t : String} (hres : resolverResolve ri tn = none) :
    addImportIfExternal ri file pf tn t = pf := by
  unfold addImportIfExternal
  rw [hres]

/-- A successful `processMessage` runs the field loop under the registry
extended by the message's three declarations and keeps its import set. -/
lemma processMessage_some (r0 : Registry) (file : FileDescriptorProto) (pf : protoFile)
    (m : DescriptorProto) (x : Registry × protoFile × messageValues × List String)
    (h : processMessage r0 file pf m = some x) :
    ∃ w, processFields
        (resolverSet (resolverSet (resolverSet r0 file m.name) file (typeToInterface m.name))
          file (typeToJSONInterface m.name)) file m pf m.field = some w
      ∧ x.1 = resolverSet (resolverSet (resolverSet r0 file m.name) file (typeToInterface m.name))
          file (typeToJSONInterface m.name)
      ∧ x.2.1 = w.1 := by
  replace h :
      (match processFields
          (resolverSet (resolverSet (resolverSet r0 file m.name) file (typeToInterface m.name))
            file (typeToJSONInterface m.name)) file m pf m.field with
        | none => none
        | some w =>
          some (resolverSet (resolverSet (resolverSet r0 file m.name) file (typeToInterface m.name))
              file (typeToJSONInterface m.name), w.1,
            messageValues.mk m.name (typeToInterface m.name) (typeToJSONInterface m.name) w.2 []
              (m.enumType.map (buildNestedEnum m)),
            nestedWarning m)) = some x := h
  cases hpf : processFields
      (resolverSet (resolverSet (resolverSet r0 file m.name) file (typeToInterface m.name))
        file (typeToJSONInterface m.name)) file m pf m.field with
  | none => rw [hpf] at h; exact Option.noConfusion h
  | some w =>
    rw [hpf] at h
    simp only [Option.some.injEq] at h
    subst h
    exact ⟨w, rfl, rfl, rfl⟩

/-- Import behaviour of one message's field loop. -/
lemma processFields_imports (r : Registry) (file : FileDescriptorProto) (msg : DescriptorProto)
    (fs : List FieldDescriptorProto) :
    ∀ (ri : Registry) (pf : protoFile) (z : protoFile × List fieldValues),
      RegExt r ri file →
      processFields ri file msg pf fs = some z →
      (∀ k ∈ importKeys pf, k ∈ importKeys z.1)
      ∧ (ImportInv r file pf → ImportInv r file z.1)
      ∧ (∀ f ∈ fs, ∀ fp, resolverResolve r f.typeName = some fp → sameFile fp file = false →
          tsFileName fp ∈ importKeys z.1) := by
  induction fs with
  | nil =>
    intro ri pf z hext h
    replace h : some (pf, ([] : List fieldValues)) = some z := h
    simp only [Option.some.injEq] at h
    subst h
    exact ⟨fun k hk => hk, fun hi => hi, by simp⟩
  | cons f fs ih =>
    intro ri pf z hext h
    replace h :
        (match processField ri file msg pf f with
          | none => none
          | some x => (processFields ri file msg x.1 fs).map (fun y => (y.1, x.2 :: y.2))) = some z := h
    cases hc : processField ri file msg pf f with
    | none => rw [hc] at h; exact Option.noConfusion h
    | some x =>
      rw [hc] at h
      replace h : (processFields ri file msg x.1 fs).map (fun y => (y.1, x.2 :: y.2)) = some z := h
      cases hrec : processFields ri file msg x.1 fs with
      | none => rw [hrec] at h; exact Option.noConfusion h
      | some y =>
        rw [hrec] at h
        simp only [Option.map_some', Option.some.injEq] at h
        subst h
        obtain ⟨hx1, _, _⟩ := processField_some ri file msg pf f x hc
        obtain ⟨ihmono, ihinv, ihcomp⟩ := ih ri x.1 y hext hrec
        refine ⟨?_, ?_, ?_⟩
        · intro k hk
          apply ihmono
          rw [hx1]
          exact aie_mono hk
        · intro hi
          apply ihinv
          rw [hx1]
          exact aie_inv hext hi
        · intro f' hf' fp hres hsf
          rcases List.mem_cons.mp hf' with rfl | hf'
          · apply ihmono
            rw [hx1]
            exact aie_complete (resolve_stable hext hres) hsf
          · exact ihcomp f' hf' fp hres hsf

/-- Import behaviour of the message loop. -/
lemma processMessages_imports (r : Registry) (file : FileDescriptorProto)
    (ms : List DescriptorProto) :
    ∀ (ri : Registry) (pf : protoFile)
      (z : Registry × protoFile × List messageValues × List String),
      RegExt r ri file →
      processMessages file ri pf ms = some z →
      RegExt r z.1 file
      ∧ (∀ k ∈ importKeys pf, k ∈ importKeys z.2.1)
      ∧ (ImportInv r file pf → ImportInv r file z.2.1)
      ∧ (∀ m ∈ ms, ∀ f ∈ m.field, ∀ fp, resolverResolve r f.typeName = some fp →
          sameFile fp file = false → tsFileName fp ∈ importKeys z.2.1) := by
  induction ms with
  | nil =>
    intro ri pf z hext h
    replace h : some (ri, pf, ([] : List messageValues), ([] : List String)) = some z := h
    simp only [Option.some.injEq] at h
    subst h
    exact ⟨hext, fun k hk => hk, fun hi => hi, by simp⟩
  | cons m ms ih =>
    intro ri pf z hext h
    replace h :
        (match processMessage ri file pf m with
          | none => none
          | some x =>
            (processMessages file x.1 x.2.1 ms).map
              (fun y => (y.1, y.2.1, x.2.2.1 :: y.2.2.1, x.2.2.2 ++ y.2.2.2))) = some z := h
    cases hpm : processMessage ri file pf m with
    | none => rw [hpm] at h; exact Option.noConfusion h
    | some x =>
      rw [hpm] at h
      replace h : (processMessages file x.1 x.2.1 ms).map
          (fun y => (y.1, y.2.1, x.2.2.1 :: y.2.2.1, x.2.2.2 ++ y.2.2.2)) = some z := h
      cases hrec : processMessages file x.1 x.2.1 ms with
      | none => rw [hrec] at h; exact Option.noConfusion h
      | some y =>
        rw [hrec] at h
        simp only [Option.map_some', Option.some.injEq] at h
        subst h
        obtain ⟨w, hpf, hx1, hx21⟩ := processMessage_some ri file pf m x hpm
        have hext3 : RegExt r (resolverSet (resolverSet (resolverSet ri file m.name) file
            (typeToInterface m.name)) file (typeToJSONInterface m.name)) file :=
          regExt_set (regExt_set (regExt_set hext _) _) _
        obtain ⟨fmono, finv, fcomp⟩ :=
          processFields_imports r file m m.field _ pf w hext3 hpf
        have hextx : RegExt r x.1 file := hx1 ▸ hext3
        obtain ⟨ihext, ihmono, ihinv, ihcomp⟩ := ih x.1 x.2.1 y hextx hrec
        refine ⟨ihext, ?_, ?_, ?_⟩
        · intro k hk
          apply ihmono
          rw [hx21]
          exact fmono k hk
        · intro hi
          apply ihinv
          rw [hx21]
          exact finv hi
        · intro m' hm' f hf fp hres hsf
          rcases List.mem_cons.mp hm' with rfl | hm'
          · apply ihmono
            rw [hx21]
            exact fcomp f hf fp hres hsf
          · exact ihcomp m' hm' f hf fp hres hsf

/-- The enum loop only grows the registry with the file's own names. -/
lemma processEnums_regExt (file : FileDescriptorProto) (es : List EnumDescriptorProto) :
    ∀ {r ri : Registry}, RegExt r ri file → RegExt r (processEnums file ri es).1 file := by
  induction es with
  | nil => intro r ri h; exact h
  | cons e es ih => intro r ri h; exact ih (regExt_set h _)

/-- Import behaviour of one method. -/
lemma processMethod_imports (r ri : Registry) (file : FileDescriptorProto) (pf : protoFile)
    (mth : MethodDescriptorProto) (hext : RegExt r ri file) :
    (∀ k ∈ importKeys pf, k ∈ importKeys (processMethod ri file pf mth).1)
    ∧ (ImportInv r file pf → ImportInv r file (processMethod ri file pf mth).1)
    ∧ (∀ fp, (resolverResolve r mth.inputType = some fp ∨ resolverResolve r mth.outputType = some fp) →
        sameFile fp file = false → tsFileName fp ∈ importKeys (processMethod ri file pf mth).1) := by
  refine ⟨?_, ?_, ?_⟩
  · intro k hk
    exact aie_mono (aie_mono hk)
  · intro hi
    exact aie_inv hext (aie_inv hext hi)
  · intro fp hres hsf
    rcases hres with hres | hres
    · exact aie_mono (aie_complete (resolve_stable hext hres) hsf)
    · exact aie_complete (resolve_stable hext hres) hsf

/-- Import behaviour of the method loop. -/
lemma processMethods_imports (r : Registry) (file : FileDescriptorProto)
    (ms : List MethodDescriptorProto) :
    ∀ (ri : Registry) (pf : protoFile), RegExt r ri file →
      (∀ k ∈ importKeys pf, k ∈ importKeys (processMethods ri file pf ms).1)
      ∧ (ImportInv r file pf → ImportInv r file (processMethods ri file pf ms).1)
      ∧ (∀ mth ∈ ms, ∀ fp,
          (resolverResolve r mth.inputType = some fp ∨ resolverResolve r mth.outputType = some fp) →
          sameFile fp file = false → tsFileName fp ∈ importKeys (processMethods ri file pf ms).1) := by
  induction ms with
  | nil =>
    intro ri pf hext
    exact ⟨fun k hk => hk, fun hi => hi, by simp⟩
  | cons m ms ih =>
    intro ri pf hext
    obtain ⟨mmono, minv, mcomp⟩ := processMethod_imports r ri file pf m hext
    obtain ⟨ihmono, ihinv, ihcomp⟩ := ih ri (processMethod ri file pf m).1 hext
    refine ⟨?_, ?_, ?_⟩
    · intro k hk
      exact ihmono k (mmono k hk)
    · intro hi
      exact ihinv (minv hi)
    · intro mth hmth fp hres hsf
      rcases List.mem_cons.mp hmth with rfl | hmth
      · exact ihmono _ (mcomp fp hres hsf)
      · exact ihcomp mth hmth fp hres hsf

/-- Import behaviour of the service loop. -/
lemma processServices_imports (r : Registry) (file : FileDescriptorProto)
    (ss : List ServiceDescriptorProto) :
    ∀ (ri : Registry) (pf : protoFile), RegExt r ri file →
      RegExt r (processServices file ri pf ss).1 file
      ∧ (∀ k ∈ importKeys pf, k ∈ importKeys (processServices file ri pf ss).2.1)
      ∧ (ImportInv r file pf → ImportInv r file (processServices file ri pf ss).2.1)
      ∧ (∀ s ∈ ss, ∀ mth ∈ s.method, ∀ fp,
          (resolverResolve r mth.inputType = some fp ∨ resolverResolve r mth.outputType = some fp) →
          sameFile fp file = false → tsFileName fp ∈ importKeys (processServices file ri pf ss).2.1) := by
  induction ss with
  | nil =>
    intro ri pf hext
    exact ⟨hext, fun k hk => hk, fun hi => hi, by simp⟩
  | cons s ss ih =>
    intro ri pf hext
    have hext1 : RegExt r (resolverSet ri file s.name) file := regExt_set hext _
    obtain ⟨mmono, minv, mcomp⟩ :=
      processMethods_imports r file s.method (resolverSet ri file s.name) pf hext1
    obtain ⟨ihext, ihmono, ihinv, ihcomp⟩ :=
      ih (resolverSet ri file s.name)
        (processMethods (resolverSet ri file s.name) file pf s.method).1 hext1
    refine ⟨ihext, ?_, ?_, ?_⟩
    · intro k hk
      exact ihmono k (mmono k hk)
    · intro hi
      exact ihinv (minv hi)
    · intro s' hs' mth hmth fp hres hsf
      rcases List.mem_cons.mp hs' with rfl | hs'
      · exact ihmono _ (mcomp mth hmth fp hres hsf)
      · exact ihcomp s' hs' mth hmth fp hres hsf

/-! ## C5: import uniqueness and absence of self-imports -/

/-- C5: for a file model built by the pass (over a registry `r` of
previously processed files whose output paths do not collide with this
file's), the import keys are pairwise distinct — however many fields or
methods reference types of the same external file, that file's output path
keys exactly one entry — no key is the file's own output path, and every
field or method reference that resolves to a different file does key an
entry. -/
theorem imports_unique_and_no_self_import (r : Registry) (file : FileDescriptorProto)
    (z : Registry × protoFile × List String) (h : processFile r file = some z)
    (hinj : ∀ fp ∈ r.map Prod.snd, fp.name ≠ file.name → tsFileName fp ≠ tsFileName file) :
    (importKeys z.2.1).Nodup
    ∧ (∀ k ∈ importKeys z.2.1, k ≠ tsFileName file)
    ∧ (∀ m ∈ file.messageType, ∀ f ∈ m.field, ∀ fp,
        resolverResolve r f.typeName = some fp → sameFile fp file = false →
        tsFileName fp ∈ importKeys z.2.1)
    ∧ (∀ s ∈ file.service, ∀ mth ∈ s.method, ∀ fp,
        (resolverResolve r mth.inputType = some fp ∨ resolverResolve r mth.outputType = some fp) →
        sameFile fp file = false → tsFileName fp ∈ importKeys z.2.1) := by
  replace h :
      (match processMessages file (processEnums file r file.enumType).1
          { Output := tsFileName file
            RelativeImportBase := relativeImportBase file
            Imports := []
            Messages := []
            Services := []
            Enums := [] } file.messageType with
        | none => none
        | some q =>
          some ((processServices file q.1 q.2.1 file.service).1,
            { (processServices file q.1 q.2.1 file.service).2.1 with
                Enums := (processEnums file r file.enumType).2
                Messages := q.2.2.1
                Services := (processServices file q.1 q.2.1 file.service).2.2 },
            q.2.2.2)) = some z := h
  cases hm : processMessages file (processEnums file r file.enumType).1
      { Output := tsFileName file
        RelativeImportBase := relativeImportBase file
        Imports := []
        Messages := []
        Services := []
        Enums := [] } file.messageType with
  | none => rw [hm] at h; exact Option.noConfusion h
  | some q =>
    rw [hm] at h
    simp only [Option.some.injEq] at h
    subst h
    have hextE : RegExt r (processEnums file r file.enumType).1 file :=
      processEnums_regExt file file.enumType (regExt_refl r file)
    have hinv0 : ImportInv r file
        { Output := tsFileName file
          RelativeImportBase := relativeImportBase file
          Imports := []
          Messages := []
          Services := []
          Enums := [] } := ⟨List.nodup_nil, by simp [importKeys]⟩
    obtain ⟨hextQ, _, minv, mcomp⟩ :=
      processMessages_imports r file file.messageType _ _ q hextE hm
    obtain ⟨_, smono, sinv, scomp⟩ :=
      processServices_imports r file file.service q.1 q.2.1 hextQ
    have hfin : ImportInv r file (processServices file q.1 q.2.1 file.service).2.1 :=
      sinv (minv hinv0)
    refine ⟨hfin.1, ?_, ?_, ?_⟩
    · intro k hk
      obtain ⟨fp, rfl, hname, hmem⟩ := hfin.2 k hk
      exact hinj fp hmem hname
    · intro m hm' f hf fp hres hsf
      exact smono _ (mcomp m hm' f hf fp hres hsf)
    · exact scomp

/-- File `a.proto` in package `liba`, declaring messages `Item` and
`Extra`. -/
def demoFileA : FileDescriptorProto :=
  { name := "a.proto"
    package := "liba"
    enumType := []
    messageType := [.mk "Item" [] [] [], .mk "Extra" [] [] []]
    service := [] }

/-- The registry after the pass over `demoFileA`. -/
def demoRegA : Registry :=
  match processFile [] demoFileA with
  | some x => x.1
  | none => []

/-- File `b.proto` in package `libb`: its message references `liba.Item`
through two distinct fields and itself through a third, and its service
method references itself and `liba.Extra`. -/
def demoFileB : FileDescriptorProto :=
  { name := "b.proto"
    package := "libb"
    enumType := []
    messageType := [.mk "Order"
      [{ name := "item", type' := .TYPE_MESSAGE, typeName := ".liba.Item", label := none },
       { name := "item_two", type' := .TYPE_MESSAGE, typeName := ".liba.Item", label := none },
       { name := "parent", type' := .TYPE_MESSAGE, typeName := ".libb.Order", label := none }]
      [] []]
    service := [{ name := "OrderSvc"
                  method := [{ name := "Get", inputType := ".libb.Order", outputType := ".liba.Extra" }] }] }

/-- The result of the pass over `demoFileB`, run after `demoFileA`. -/
def demoZB : Registry × protoFile × List String :=
  (processFile demoRegA demoFileB).getD
    ([], { Output := "", RelativeImportBase := "", Imports := [],
           Messages := [], Services := [], Enums := [] }, [])

/-- C5, witness: on the concrete two-file run, `demoFileB`'s model carries
exactly one import entry, keyed by `demoFileA`'s output path `liba/a.ts`,
although three field references and two method references point at `liba`
or at `libb` itself. -/
theorem imports_unique_and_no_self_import_witness :
    processFile demoRegA demoFileB = some demoZB
  ∧ (∀ fp ∈ demoRegA.map Prod.snd, fp.name ≠ demoFileB.name → tsFileName fp ≠ tsFileName demoFileB)
  ∧ ((importKeys demoZB.2.1).Nodup
      ∧ (∀ k ∈ importKeys demoZB.2.1, k ≠ tsFileName demoFileB)
      ∧ (∀ m ∈ demoFileB.messageType, ∀ f ∈ m.field, ∀ fp,
          resolverResolve demoRegA f.typeName = some fp → sameFile fp demoFileB = false →
          tsFileName fp ∈ importKeys demoZB.2.1)
      ∧ (∀ s ∈ demoFileB.service, ∀ mth ∈ s.method, ∀ fp,
          (resolverResolve demoRegA mth.inputType = some fp
            ∨ resolverResolve demoRegA mth.outputType = some fp) →
          sameFile fp demoFileB = false → tsFileName fp ∈ importKeys demoZB.2.1))
  ∧ importKeys demoZB.2.1 = ["liba/a.ts"] :=
  ⟨rfl, by decide,
   imports_unique_and_no_self_import demoRegA demoFileB demoZB rfl (by decide),
   by decide⟩

/-! ## Totality of the pass under well-formed field names (C6) -/

/-- One field-loop step, in `Option.bind` form. -/
lemma processFields_cons (ri : Registry) (file : FileDescriptorProto) (msg : DescriptorProto)
    (pf : protoFile) (f : FieldDescriptorProto) (fs : List FieldDescriptorProto) :
    processFields ri file msg pf (f :: fs)
      = (processField ri file msg pf f).bind (fun x =>
          (processFields ri file msg x.1 fs).map (fun y => (y.1, x.2 :: y.2))) := by
  show (match processField ri file msg pf f with
        | none => none
        | some x => (processFields ri file msg x.1 fs).map
            (fun y : protoFile × List fieldValues => (y.1, x.2 :: y.2))) = _
  cases h : processField ri file msg pf f <;> rfl

/-- One message-loop step, in `Option.bind` form. -/
lemma processMessages_cons (file : FileDescriptorProto) (ri : Registry) (pf : protoFile)
    (m : DescriptorProto) (ms : List DescriptorProto) :
    processMessages file ri pf (m :: ms)
      = (processMessage ri file pf m).bind (fun x =>
          (processMessages file x.1 x.2.1 ms).map
            (fun y => (y.1, y.2.1, x.2.2.1 :: y.2.2.1, x.2.2.2 ++ y.2.2.2))) := by
  show (match processMessage ri file pf m with
        | none => none
        | some x =>
          (processMessages file x.1 x.2.1 ms).map
            (fun y : Registry × protoFile × List messageValues × List String =>
              (y.1, y.2.1, x.2.2.1 :: y.2.2.1, x.2.2.2 ++ y.2.2.2))) = _
  cases h : processMessage ri file pf m <;> rfl

/-- `processMessage`, in `Option.map` form. -/
lemma processMessage_eq (ri : Registry) (file : FileDescriptorProto) (pf : protoFile)
    (m : DescriptorProto) :
    processMessage ri file pf m
      = (processFields
            (resolverSet (resolverSet (resolverSet ri file m.name) file (typeToInterface m.name))
              file (typeToJSONInterface m.name)) file m pf m.field).map
          (fun w =>
            (resolverSet (resolverSet (resolverSet ri file m.name) file (typeToInterface m.name))
                file (typeToJSONInterface m.name), w.1,
              messageValues.mk m.name (typeToInterface m.name) (typeToJSONInterface m.name) w.2 []
                (m.enumType.map (buildNestedEnum m)),
              nestedWarning m)) := by
  show (match processFields
          (resolverSet (resolverSet (resolverSet ri file m.name) file (typeToInterface m.name))
            file (typeToJSONInterface m.name)) file m pf m.field with
        | none => none
        | some x =>
          some (resolverSet (resolverSet (resolverSet ri file m.name) file (typeToInterface m.name))
              file (typeToJSONInterface m.name), x.1,
            messageValues.mk m.name (typeToInterface m.name) (typeToJSONInterface m.name) x.2 []
              (m.enumType.map (buildNestedEnum m)),
            nestedWarning m)) = _
  cases h : processFields
      (resolverSet (resolverSet (resolverSet ri file m.name) file (typeToInterface m.name))
        file (typeToJSONInterface m.name)) file m pf m.field <;> rfl

/-- `processFile`, in `Option.map` form. -/
lemma processFile_eq (r : Registry) (file : FileDescriptorProto) :
    processFile r file
      = (processMessages file (processEnums file r file.enumType).1
          { Output := tsFileName file
            RelativeImportBase := relativeImportBase file
            Imports := []
            Messages := []
            Services := []
            Enums := [] } file.messageType).map
          (fun q =>
            ((processServices file q.1 q.2.1 file.service).1,
              { (processServices file q.1 q.2.1 file.service).2.1 with
                  Enums := (processEnums file r file.enumType).2
                  Messages := q.2.2.1
                  Services := (processServices file q.1 q.2.1 file.service).2.2 },
              q.2.2.2)) := by
  show (match processMessages file (processEnums file r file.enumType).1
          { Output := tsFileName file
            RelativeImportBase := relativeImportBase file
            Imports := []
            Messages := []
            Services := []
            Enums := [] } file.messageType with
        | none => none
        | some q =>
          some ((processServices file q.1 q.2.1 file.service).1,
            { (processServices file q.1 q.2.1 file.service).2.1 with
                Enums := (processEnums file r file.enumType).2
                Messages := q.2.2.1
                Services := (processServices file q.1 q.2.1 file.service).2.2 },
            q.2.2.2)) = _
  cases h : processMessages file (processEnums file r file.enumType).1
      { Output := tsFileName file
        RelativeImportBase := relativeImportBase file
        Imports := []
        Messages := []
        Services := []
        Enums := [] } file.messageType <;> rfl

/-- One outer-loop step, in `Option.bind` form. -/
lemma generateFiles_cons (r : Registry) (file : FileDescriptorProto)
    (files : List FileDescriptorProto) :
    generateFiles r (file :: files)
      = (processFile r file).bind (fun x =>
          (generateFiles x.1 files).map (fun y => (y.1, x.2.1 :: y.2.1, x.2.2 ++ y.2.2))) := by
  show (match processFile r file with
        | none => none
        | some x =>
          (generateFiles x.1 files).map
            (fun y : Registry × List protoFile × List String =>
              (y.1, x.2.1 :: y.2.1, x.2.2 ++ y.2.2))) = _
  cases h : processFile r file <;> rfl

/-- The field loop cannot fail when every field name camel-cases without
hitting the out-of-bounds branch — resolvability of type references plays
no part in success. -/
lemma processFields_total (ri : Registry) (file : FileDescriptorProto) (msg : DescriptorProto)
    (fs : List FieldDescriptorProto) :
    ∀ pf, (∀ f ∈ fs, (camelCase f.name).isSome = true) →
      ∃ z, processFields ri file msg pf fs = some z := by
  induction fs with
  | nil => intro pf _; exact ⟨(pf, []), rfl⟩
  | cons f fs ih =>
    intro pf hcc
    obtain ⟨cc, hc⟩ := Option.isSome_iff_exists.mp (hcc f (List.mem_cons_self f fs))
    obtain ⟨z, hz⟩ := ih (addImportIfExternal ri file pf f.typeName (singularFieldType msg f))
      (fun g hg => hcc g (List.mem_cons_of_mem f hg))
    rw [processFields_cons, processField_eq, hc]
    simp only [Option.map_some', Option.some_bind]
    rw [hz]
    exact ⟨_, rfl⟩

/-- The message loop cannot fail when every field name of every message
camel-cases. -/
lemma processMessages_total (file : FileDescriptorProto) (ms : List DescriptorProto) :
    ∀ (ri : Registry) (pf : protoFile),
      (∀ m ∈ ms, ∀ f ∈ m.field, (camelCase f.name).isSome = true) →
      ∃ z, processMessages file ri pf ms = some z := by
  induction ms with
  | nil => intro ri pf _; exact ⟨(ri, pf, [], []), rfl⟩
  | cons m ms ih =>
    intro ri pf hcc
    obtain ⟨w, hw⟩ := processFields_total
      (resolverSet (resolverSet (resolverSet ri file m.name) file (typeToInterface m.name))
        file (typeToJSONInterface m.name)) file m m.field pf
      (fun f hf => hcc m (List.mem_cons_self m ms) f hf)
    obtain ⟨y, hy⟩ := ih _ w.1 (fun m' hm' => hcc m' (List.mem_cons_of_mem m hm'))
    rw [processMessages_cons, processMessage_eq, hw]
    simp only [Option.map_some', Option.some_bind]
    rw [hy]
    exact ⟨_, rfl⟩

/-- A whole file's pass cannot fail when its field names camel-case. -/
lemma processFile_total (r : Registry) (file : FileDescriptorProto)
    (hcc : ∀ m ∈ file.messageType, ∀ f ∈ m.field, (camelCase f.name).isSome = true) :
    ∃ z, processFile r file = some z := by
  obtain ⟨q, hq⟩ := processMessages_total file file.messageType
    (processEnums file r file.enumType).1
    { Output := tsFileName file
      RelativeImportBase := relativeImportBase file
      Imports := []
      Messages := []
      Services := []
      Enums := [] } hcc
  rw [processFile_eq, hq]
  exact ⟨_, rfl⟩

/-- The outer loop cannot fail when all field names camel-case; it models
every file, and every message of every file keeps all its fields with
their mapped output types. -/
lemma generateFiles_shape (files : List FileDescriptorProto) :
    ∀ r : Registry,
      (∀ file ∈ files, ∀ m ∈ file.messageType, ∀ f ∈ m.field, (camelCase f.name).isSome = true) →
      ∃ z, generateFiles r files = some z
        ∧ z.2.1.length = files.length
        ∧ z.2.1.map (fun pf => pf.Messages.map (fun mv => mv.Fields.map (fun fv => (fv.Name, fv.Type'))))
            = files.map (fun file => file.messageType.map
                (fun m => m.field.map (fun f => (f.name, singularFieldType m f)))) := by
  induction files with
  | nil => intro r _; exact ⟨(r, [], []), rfl, rfl, rfl⟩
  | cons file files ih =>
    intro r hcc
    obtain ⟨x, hx⟩ := processFile_total r file
      (fun m hm => hcc file (List.mem_cons_self file files) m hm)
    obtain ⟨y, hy, hlen, hmap⟩ := ih x.1 (fun g hg => hcc g (List.mem_cons_of_mem file hg))
    refine ⟨(y.1, x.2.1 :: y.2.1, x.2.2 ++ y.2.2), ?_, ?_, ?_⟩
    · rw [generateFiles_cons, hx]
      simp only [Option.some_bind]
      rw [hy]
      rfl
    · simpa using hlen
    · obtain ⟨_, _, _, _, _, hF⟩ := processFile_spec r file x hx
      simp only [List.map_cons]
      rw [hF, hmap]

/-! ## C6: unresolvable references degrade gracefully -/

/-- C6: a reference whose fully-qualified name is absent from the registry
never aborts the pass: success of the run depends only on the casing
transform (never on resolvability), every file of the request is modeled,
every message keeps all its fields with their best-effort mapped output
types, and the import-recording block records nothing for an unresolved
reference. -/
theorem unresolved_reference_does_not_abort (files : List FileDescriptorProto)
    (hcc : ∀ file ∈ files, ∀ m ∈ file.messageType, ∀ f ∈ m.field,
      (camelCase f.name).isSome = true) :
    (∃ z, generateFiles [] files = some z
      ∧ z.2.1.length = files.length
      ∧ z.2.1.map (fun pf => pf.Messages.map (fun mv => mv.Fields.map (fun fv => (fv.Name, fv.Type'))))
          = files.map (fun file => file.messageType.map
              (fun m => m.field.map (fun f => (f.name, singularFieldType m f)))))
    ∧ (∀ (ri : Registry) (file : FileDescriptorProto) (pf : protoFile) (tn t : String),
        resolverResolve ri tn = none → addImportIfExternal ri file pf tn t = pf) :=
  ⟨generateFiles_shape files [] hcc, fun _ _ _ _ _ h => aie_unresolved h⟩

/-- A file whose first message references `.other.T`, a type declared in no
file of the run. -/
def demoFileU : FileDescriptorProto :=
  { name := "u.proto"
    package := "u"
    enumType := []
    messageType :=
      [.mk "M1" [{ name := "ref", type' := .TYPE_MESSAGE, typeName := ".other.T", label := none }] [] [],
       .mk "M2" [{ name := "tag", type' := .TYPE_STRING, typeName := "", label := none }] [] []]
    service := [] }

/-- A second file in the same run, processed after the unresolvable
reference. -/
def demoFileV : FileDescriptorProto :=
  { name := "v.proto"
    package := "v"
    enumType := []
    messageType :=
      [.mk "N" [{ name := "val", type' := .TYPE_INT32, typeName := "", label := none }] [] []]
    service := [] }

/-- C6, witness: the statement evaluated on the concrete run containing an
unresolvable field reference in its first file. -/
theorem unresolved_reference_does_not_abort_witness :
    (∃ z, generateFiles [] [demoFileU, demoFileV] = some z
      ∧ z.2.1.length = [demoFileU, demoFileV].length
      ∧ z.2.1.map (fun pf => pf.Messages.map (fun mv => mv.Fields.map (fun fv => (fv.Name, fv.Type'))))
          = [demoFileU, demoFileV].map (fun file => file.messageType.map
              (fun m => m.field.map (fun f => (f.name, singularFieldType m f)))))
    ∧ (∀ (ri : Registry) (file : FileDescriptorProto) (pf : protoFile) (tn t : String),
        resolverResolve ri tn = none → addImportIfExternal ri file pf tn t = pf) :=
  unresolved_reference_does_not_abort [demoFileU, demoFileV] (by decide)
